import Mathlib

/-!
Verification of the volk HTTP message layer: a shallow embedding of the
request parser, request-target decomposer, query/fragment extractors,
header codec and path validator, over `List Char` as the string type.
Go byte-indices coincide with character indices for the operations
modelled here because every delimiter searched for is a single ASCII
character, so slicing at the index of a found delimiter yields the same
string either way.
-/

namespace Volk

/-- Strings are modelled as lists of characters. -/
abbrev Str := List Char

/-- First index of character `c` in `s` (Go `strings.Index` for a
one-character pattern). -/
def idxOf? (c : Char) : Str → Option Nat
  | [] => none
  | a :: r => if a = c then some 0 else (idxOf? c r).map (· + 1)

/-- Prepend a character onto the first token of a split result
(helper shared by the splitting functions). -/
def consHead (x : Char) : List Str → List Str
  | [] => [[x]]
  | t :: ts => (x :: t) :: ts

/-- Go `strings.Split(s, string(c))` for a one-character separator. -/
def splitChar (c : Char) : Str → List Str
  | [] => [[]]
  | x :: r => if x = c then [] :: splitChar c r else consHead x (splitChar c r)

/-- Go `strings.Split(s, CRLF)` where `CRLF = "\r\n"`. -/
def splitCRLF : Str → List Str
  | [] => [[]]
  | a :: r =>
    match r with
    | b :: r2 =>
      if a = '\r' ∧ b = '\n' then [] :: splitCRLF r2
      else consHead a (splitCRLF (b :: r2))
    | [] => [[a]]

/-- Go `strings.Split(s, HeaderBodySeparator)` where the separator is
`CRLF + CRLF = "\r\n\r\n"`. -/
def splitSep : Str → List Str
  | [] => [[]]
  | a :: r =>
    match r with
    | b :: c :: d :: r2 =>
      if a = '\r' ∧ b = '\n' ∧ c = '\r' ∧ d = '\n' then [] :: splitSep r2
      else consHead a (splitSep (b :: c :: d :: r2))
    | [b, c] => consHead a (splitSep [b, c])
    | [b] => consHead a (splitSep [b])
    | [] => [[a]]

/-- Go `strings.Trim(s, " ")`: surrounding space characters (only `' '`)
are removed. -/
def trimSpacesOnly (s : Str) : Str :=
  ((s.dropWhile (· == ' ')).reverse.dropWhile (· == ' ')).reverse

/-- Characters treated as whitespace by Go `strings.TrimSpace`
(`unicode.IsSpace` over the Latin-1 range). -/
def goSpace (c : Char) : Bool :=
  c.toNat = 32 || c.toNat = 9 || c.toNat = 10 || c.toNat = 11 ||
  c.toNat = 12 || c.toNat = 13 || c.toNat = 133 || c.toNat = 160

/-- Go `strings.TrimSpace`. -/
def trimGoSpace (s : Str) : Str :=
  ((s.dropWhile goSpace).reverse.dropWhile goSpace).reverse

/-- Go `strings.Contains(s, pat)`: some contiguous run of `s` equals `pat`. -/
def hasSub (pat : Str) : Str → Bool
  | [] => pat.isPrefixOf []
  | a :: r => pat.isPrefixOf (a :: r) || hasSub pat r

/-- Go `strings.SplitN(s, string(c), 2)`: the part before the first `c` and,
when `c` occurs, the part after it. -/
def splitOnce (c : Char) (s : Str) : Str × Option Str :=
  match idxOf? c s with
  | none => (s, none)
  | some i => (s.take i, some (s.drop (i + 1)))

/-- Error values of the http package (`errors.New` / `fmt.Errorf` values,
with the wrapping performed by `parseRequest` modelled as constructors). -/
inductive VErr where
  | queryNotFound
  | fragmentBeforeQuery
  | queryEmpty
  | fragmentNotFound
  | fragmentEmpty
  | fragmentNoHashMark
  | fragmentWhitespace
  | missingColon
  | emptyHeaderName
  | invalidHeaderNameChars
  | missingSeparator
  | noStartLine
  | invalidStartLine
  | invalidRequestTarget (e : VErr)
  | invalidHeader (e : VErr)
  | emptyPath
  | wildcardStar (m : Str)
  | missingLeadingSlash (t : Str)
  | directoryTraversal
  | forbiddenSegment
  | invalidPathChars
  deriving DecidableEq

/-- Query parameters: Go's `map[string][]string` modelled as an association
list in key-insertion order (the map's contents are order-independent; an
iteration order is chosen explicitly where the code ranges over the map). -/
abbrev Params := List (Str × List Str)

/-- `params[key] = append(params[key], v)` on the association-list model:
append `v` to the existing entry for `key`, or add a new entry at the end. -/
def appendParam (ps : Params) (k : Str) (v : Str) : Params :=
  match ps with
  | [] => [(k, [v])]
  | (k2, vs) :: rest =>
    if k2 = k then (k2, vs ++ [v]) :: rest else (k2, vs) :: appendParam rest k v

/-- `findQuery` (query.go): extract the query substring, `?` included, from
a request target. -/
def findQuery (t : Str) : Except VErr (Str × Nat) :=
  match idxOf? '?' t with
  | none => .error .queryNotFound
  | some qi =>
    match idxOf? '#' t with
    | some fi =>
      if fi < qi then .error .fragmentBeforeQuery
      else
        let q := (t.take fi).drop qi
        if q = [] then .error .queryEmpty else .ok (q, qi)
    | none =>
      let q := t.drop qi
      if q = [] then .error .queryEmpty else .ok (q, qi)

/-- `parseQuery` (query.go): strip one leading `?`, split on `&`, skip empty
segments, split each segment at its first `=`. Returns the params together
with the error value Go pairs with them (`ErrQueryEmpty` on empty input). -/
def parseQuery (q : Str) : Params × Option VErr :=
  let q2 := match q with
    | '?' :: rest => rest
    | other => other
  if q2 = [] then ([], some .queryEmpty)
  else
    ((splitChar '&' q2).foldl
      (fun ps param =>
        if param = [] then ps
        else
          let kv := splitOnce '=' param
          appendParam ps kv.1 (kv.2.getD []))
      [], none)

/-- `FindAndParseQuery` (query.go): compose `findQuery` and `parseQuery`.
`ErrQueryNotFound` becomes a success with empty params and index `-1`
(modelled `none`); any error of `parseQuery` itself is discarded. -/
def FindAndParseQuery (t : Str) : Params × Option Nat × Option VErr :=
  match findQuery t with
  | .error e => if e = .queryNotFound then ([], none, none) else ([], none, some e)
  | .ok (q, i) => ((parseQuery q).1, some i, none)

/-- `findFragment` (fragment.go): the suffix of the target from the first
`#`, with its index. -/
def findFragment (t : Str) : Except VErr (Str × Nat) :=
  match idxOf? '#' t with
  | none => .error .fragmentNotFound
  | some fi => .ok (t.drop fi, fi)

/-- `parseFragment` (fragment.go): reject empty input, input without a
leading `#`, and input containing a tab, carriage return or line feed;
otherwise return the fragment unchanged. -/
def parseFragment (f : Str) : Except VErr Str :=
  if f = [] then .error .fragmentEmpty
  else if f.head? ≠ some '#' then .error .fragmentNoHashMark
  else if f.contains '\t' || f.contains '\r' || f.contains '\n' then
    .error .fragmentWhitespace
  else .ok f

/-- `FindAndParseFragment` (fragment.go): absence and every parse failure
propagate as errors. -/
def FindAndParseFragment (t : Str) : Except VErr (Str × Nat) :=
  match findFragment t with
  | .error e => .error e
  | .ok (f, fi) =>
    match parseFragment f with
    | .error e => .error e
    | .ok pf => .ok (pf, fi)

/-- The tail of `parseRequestTarget` after the fragment lookup has been
resolved to a fragment value `f` (empty when absent) and index `fi`:
run the query lookup, tolerate `NotFound`/`Empty`, and truncate the path
at the fragment index when `f` is non-empty and then at the query index
when the parsed params are non-empty. -/
def parseTargetAfterFragment (t f : Str) (fi : Nat) : Except VErr Str :=
  match FindAndParseQuery t with
  | (params, qi?, qe?) =>
    match qe? with
    | some e =>
      if e = .queryNotFound ∨ e = .queryEmpty then
        .ok (let p := if f ≠ [] then t.take fi else t
             if params ≠ [] then p.take (qi?.getD 0) else p)
      else .error e
    | none =>
      .ok (let p := if f ≠ [] then t.take fi else t
           if params ≠ [] then p.take (qi?.getD 0) else p)

/-- `parseRequestTarget` (request_target.go): extract the path from a
request target, tolerating an absent fragment and an absent/empty query. -/
def parseRequestTarget (t : Str) : Except VErr Str :=
  match FindAndParseFragment t with
  | .error e =>
    if e = .fragmentNotFound then parseTargetAfterFragment t [] 0 else .error e
  | .ok (f, fi) => parseTargetAfterFragment t f fi

/-- `RequestTarget` (request_target.go). -/
structure RequestTarget where
  path : Str
  query : Str
  fragment : Str
  deriving DecidableEq

/-- `RequestTarget.String()`: the raw concatenation `path + query + fragment`. -/
def RequestTarget.str (rt : RequestTarget) : Str :=
  rt.path ++ rt.query ++ rt.fragment

/-- `Header` (header.go). -/
structure Header where
  name : Str
  value : Str
  deriving DecidableEq

/-- `RequestStartLine` (request.go). -/
structure RequestStartLine where
  method : Str
  requestTarget : RequestTarget
  protocol : Str
  deriving DecidableEq

/-- `Request` (request.go). -/
structure Request where
  startLine : RequestStartLine
  headers : List Header
  body : Str
  deriving DecidableEq

/-- The RFC 7230 token characters accepted by the header-name pattern
of `parseHeader`, besides letters and digits: the character class
`!#$%&'*+.^_\x60|~-`. -/
def tcharSpecials : Str :=
  ['!', '#', '$', '%', '&', '\'', '*', '+', '.', '^', '_', Char.ofNat 96, '|', '~', '-']

/-- One character of the header-name token grammar. -/
def isTchar (c : Char) : Bool :=
  c.isAlpha || c.isDigit || tcharSpecials.contains c

/-- `parseHeader` (header.go): split at the first colon, trim both sides,
require a non-empty token-grammar name. -/
def parseHeader (h : Str) : Except VErr Header :=
  match idxOf? ':' h with
  | none => .error .missingColon
  | some i =>
    let name := trimGoSpace (h.take i)
    let value := trimGoSpace (h.drop (i + 1))
    if name = [] then .error .emptyHeaderName
    else if name.all isTchar then .ok ⟨name, value⟩
    else .error .invalidHeaderNameChars

/-- The header loop of `parseRequest`: skip empty lines, abort on the first
failing header line. -/
def parseHeaders : List Str → Except VErr (List Header)
  | [] => .ok []
  | l :: ls =>
    if l = [] then parseHeaders ls
    else
      match parseHeader l with
      | .error e => .error e
      | .ok h =>
        match parseHeaders ls with
        | .error e => .error e
        | .ok hs => .ok (h :: hs)

/-- One query-part string of the reconstruction in `parseRequest`:
`k` when the value is empty, `k=v` otherwise, for each value of each key. -/
def queryParts (ps : Params) : List Str :=
  ps.flatMap (fun kv => kv.2.map (fun v => if v = [] then kv.1 else kv.1 ++ '=' :: v))

/-- The `RequestTarget` assembly of `parseRequest` (request.go lines
150-181), parameterized by the iteration order `ord` used when ranging
over the params map (Go leaves that order unspecified): decompose the
path, then set `query` to `"?" + strings.Join(parts, "&")` whenever
`FindAndParseQuery` returns a nil error, and `fragment` to the parsed
fragment whenever `FindAndParseFragment` returns a nil error. -/
def buildRequestTargetWith (ord : Params → Params) (t : Str) : Except VErr RequestTarget :=
  match parseRequestTarget t with
  | .error e => .error (.invalidRequestTarget e)
  | .ok path =>
    let q : Str :=
      match FindAndParseQuery t with
      | (params, _, none) => '?' :: List.intercalate ['&'] (queryParts (ord params))
      | (_, _, some _) => []
    let f : Str :=
      match FindAndParseFragment t with
      | .ok (pf, _) => pf
      | .error _ => []
    .ok ⟨path, q, f⟩

/-- The two parts of the request after trimming and splitting on the
header/body separator `"\r\n\r\n"`. -/
def reqParts (raw : Str) : List Str :=
  splitSep (trimSpacesOnly raw)

/-- The start-line-and-headers part split on single `CRLF`s. -/
def startHeaderLines (raw : Str) : List Str :=
  splitCRLF ((reqParts raw).getD 0 [])

/-- The start line split on single spaces. -/
def startToks (raw : Str) : List Str :=
  splitChar ' ' ((startHeaderLines raw).getD 0 [])

/-- The request-target token of the start line. -/
def targetToken (raw : Str) : Str :=
  (startToks raw).getD 1 []

/-- `parseRequest` (request.go), parameterized by the map iteration order
used for the query reconstruction: trim surrounding spaces, require exactly
two separator-split parts, split the first part into start line and header
lines, require exactly three space-split start-line tokens, decompose the
request target, parse the headers, and assemble the `Request`. -/
def parseRequestWith (ord : Params → Params) (raw : Str) : Except VErr Request :=
  if (reqParts raw).length ≠ 2 then .error .missingSeparator
  else if (startHeaderLines raw).length < 1 then .error .noStartLine
  else if (startToks raw).length ≠ 3 then .error .invalidStartLine
  else
    match buildRequestTargetWith ord (targetToken raw) with
    | .error e => .error e
    | .ok rt =>
      match parseHeaders (startHeaderLines raw).tail with
      | .error e => .error (.invalidHeader e)
      | .ok hs =>
        .ok ⟨⟨(startToks raw).getD 0 [], rt, (startToks raw).getD 2 []⟩,
             hs, (reqParts raw).getD 1 []⟩

/-- `parseRequest` with the insertion iteration order. -/
def parseRequest : Str → Except VErr Request :=
  parseRequestWith id

/-- The OPTIONS method constant. -/
def optionsMethod : Str := "OPTIONS".toList

/-- A `/`-separated segment that is exactly `.` or `..`. -/
def segDot (seg : Str) : Bool :=
  seg == ['.'] || seg == ['.', '.']

/-- A character outside the printable ASCII range 32-126. -/
def badChar (c : Char) : Bool :=
  c.toNat < 32 || 126 < c.toNat

/-- The body of `Request.ValidatePath` (request.go), as a function of the
full target string `requestTarget := r.GetRequestTarget().String()` and the
request method. -/
def validatePathTM (t m : Str) : Option VErr :=
  if t = [] then some .emptyPath
  else if t = ['*'] ∧ m ≠ optionsMethod then some (.wildcardStar m)
  else if t.head? ≠ some '/' then some (.missingLeadingSlash t)
  else if hasSub ['.', '.'] t then some .directoryTraversal
  else if (splitChar '/' t).any segDot then some .forbiddenSegment
  else if t.any badChar then some .invalidPathChars
  else none

/-- `Request.ValidatePath` (request.go): every check runs on the
concatenated target string `path + query + fragment`. -/
def Request.ValidatePath (r : Request) : Option VErr :=
  validatePathTM (RequestTarget.str r.startLine.requestTarget) r.startLine.method

/-! ### Support lemmas about the string utilities -/

theorem consHead_ne_nil (x : Char) (l : List Str) : consHead x l ≠ [] := by
  cases l <;> simp [consHead]

theorem splitChar_ne_nil (c : Char) (s : Str) : splitChar c s ≠ [] := by
  induction s with
  | nil => simp [splitChar]
  | cons a r ih =>
    by_cases h : a = c <;> simp [splitChar, h, consHead_ne_nil]

theorem splitCRLF_ne_nil (s : Str) : splitCRLF s ≠ [] := by
  induction s with
  | nil => simp [splitCRLF]
  | cons a r ih =>
    match r with
    | [] => simp [splitCRLF]
    | b :: r2 =>
      by_cases h : a = '\r' ∧ b = '\n' <;>
        simp [splitCRLF, h, consHead_ne_nil]

theorem splitChar_of_not_mem {c : Char} {s : Str} (h : c ∉ s) :
    splitChar c s = [s] := by
  induction s with
  | nil => simp [splitChar]
  | cons a r ih =>
    have ha : a ≠ c := fun hac => h (hac ▸ List.mem_cons_self a r)
    have hr : c ∉ r := fun hm => h (List.mem_cons_of_mem a hm)
    simp [splitChar, ha, ih hr, consHead]

theorem consHead_cons (x : Char) (t : Str) (ts : List Str) :
    consHead x (t :: ts) = (x :: t) :: ts := rfl

theorem splitChar_append {c : Char} {a : Str} (r : Str) (h : c ∉ a) :
    splitChar c (a ++ c :: r) = a :: splitChar c r := by
  induction a with
  | nil => simp [splitChar]
  | cons x a2 ih =>
    have hx : x ≠ c := fun hxc => h (hxc ▸ List.mem_cons_self x a2)
    have ha2 : c ∉ a2 := fun hm => h (List.mem_cons_of_mem x hm)
    rw [List.cons_append, splitChar, if_neg hx, ih ha2, consHead_cons]

theorem splitCRLF_cons_ne {x : Char} (r : Str) (hx : x ≠ '\r') :
    splitCRLF (x :: r) = consHead x (splitCRLF r) := by
  match r with
  | [] => simp [splitCRLF, consHead]
  | b :: r2 =>
    have : ¬ (x = '\r' ∧ b = '\n') := fun hab => hx hab.1
    rw [splitCRLF, if_neg this]

theorem splitCRLF_of_not_mem {s : Str} (h : '\r' ∉ s) : splitCRLF s = [s] := by
  induction s with
  | nil => simp [splitCRLF]
  | cons a r ih =>
    have ha : a ≠ '\r' := fun hac => h (hac ▸ List.mem_cons_self a r)
    have hr : '\r' ∉ r := fun hm => h (List.mem_cons_of_mem a hm)
    rw [splitCRLF_cons_ne r ha, ih hr, consHead_cons]

theorem splitSep_cons_ne {x : Char} (r : Str) (hx : x ≠ '\r') :
    splitSep (x :: r) = consHead x (splitSep r) := by
  match r with
  | [] => simp [splitSep, consHead]
  | [b] => rw [splitSep]
  | [b, c] => rw [splitSep]
  | b :: c :: d :: r2 =>
    have : ¬ (x = '\r' ∧ b = '\n' ∧ c = '\r' ∧ d = '\n') := fun hq => hx hq.1
    rw [splitSep, if_neg this]

theorem splitSep_head_sep (ys : Str) :
    splitSep ('\r' :: '\n' :: '\r' :: '\n' :: ys) = [] :: splitSep ys := by
  rw [splitSep, if_pos ⟨rfl, rfl, rfl, rfl⟩]

theorem splitSep_sep_append {xs : Str} (ys : Str) (h : '\r' ∉ xs) :
    splitSep (xs ++ '\r' :: '\n' :: '\r' :: '\n' :: ys) = xs :: splitSep ys := by
  induction xs with
  | nil =>
    rw [List.nil_append, splitSep_head_sep]
  | cons x xs2 ih =>
    have hx : x ≠ '\r' := fun hxc => h (hxc ▸ List.mem_cons_self x xs2)
    have hxs2 : '\r' ∉ xs2 := fun hm => h (List.mem_cons_of_mem x hm)
    rw [List.cons_append, splitSep_cons_ne _ hx, ih hxs2, consHead_cons]

theorem dropWhile_eq_self_of_head {p : Char → Bool} {s : Str}
    (h : ∀ a, s.head? = some a → p a = false) : s.dropWhile p = s := by
  cases s with
  | nil => rfl
  | cons a r => simp [List.dropWhile_cons, h a rfl]

theorem trimSpacesOnly_eq_self {s : Str}
    (h1 : ∀ a, s.head? = some a → a ≠ ' ')
    (h2 : ∀ a, s.getLast? = some a → a ≠ ' ') : trimSpacesOnly s = s := by
  unfold trimSpacesOnly
  have hd : s.dropWhile (· == ' ') = s := by
    apply dropWhile_eq_self_of_head
    intro a ha
    simpa using h1 a ha
  rw [hd]
  have hd2 : s.reverse.dropWhile (· == ' ') = s.reverse := by
    apply dropWhile_eq_self_of_head
    intro a ha
    rw [List.head?_reverse] at ha
    simpa using h2 a ha
  rw [hd2, List.reverse_reverse]

theorem trimSpacesOnly_eq_rdrop (l : Str) :
    trimSpacesOnly l = List.rdropWhile (· == ' ') (List.dropWhile (· == ' ') l) := rfl

theorem trimSpacesOnly_idem (s : Str) :
    trimSpacesOnly (trimSpacesOnly s) = trimSpacesOnly s := by
  rw [trimSpacesOnly_eq_rdrop, trimSpacesOnly_eq_rdrop]
  have hAd : List.dropWhile (· == ' ') (List.dropWhile (· == ' ') s)
      = List.dropWhile (· == ' ') s := List.dropWhile_idempotent _ _
  obtain ⟨v, hv⟩ :=
    List.rdropWhile_prefix (· == ' ') (List.dropWhile (· == ' ') s)
  have hdr : List.dropWhile (· == ' ')
        (List.rdropWhile (· == ' ') (List.dropWhile (· == ' ') s))
      = List.rdropWhile (· == ' ') (List.dropWhile (· == ' ') s) := by
    cases hB : List.rdropWhile (· == ' ') (List.dropWhile (· == ' ') s) with
    | nil => simp
    | cons x u =>
      rw [hB] at hv
      have hAx : List.dropWhile (· == ' ') s = x :: (u ++ v) := by
        rw [← hv]
        simp
      have hpx : (x == ' ') = false := by
        by_contra hneg
        have hpos : (x == ' ') = true := by
          cases hxe : (x == ' ') with
          | false => exact absurd hxe hneg
          | true => rfl
        rw [hAx, List.dropWhile_cons, if_pos hpos] at hAd
        have hlen := congrArg List.length hAd
        have hle := (List.dropWhile_sublist (l := u ++ v) (· == ' ')).length_le
        simp only [List.length_cons] at hlen
        omega
      rw [List.dropWhile_cons, hpx]
      simp
  rw [hdr, List.rdropWhile_idempotent]

/-! ### Support lemmas about `idxOf?` -/

theorem idxOf?_lt_length {c : Char} {s : Str} {i : Nat}
    (h : idxOf? c s = some i) : i < s.length := by
  induction s generalizing i with
  | nil => simp [idxOf?] at h
  | cons a r ih =>
    by_cases ha : a = c
    · simp only [idxOf?, if_pos ha, Option.some.injEq] at h
      subst h
      simp
    · simp only [idxOf?, ha, if_false, Option.map_eq_some'] at h
      obtain ⟨j, hj, rfl⟩ := h
      have := ih hj
      simp only [List.length_cons]
      omega

theorem idxOf?_drop {c : Char} {s : Str} {i : Nat}
    (h : idxOf? c s = some i) : s.drop i = c :: s.drop (i + 1) := by
  induction s generalizing i with
  | nil => simp [idxOf?] at h
  | cons a r ih =>
    by_cases ha : a = c
    · simp [idxOf?, ha] at h
      subst h
      simpa using ha
    · simp only [idxOf?, ha, if_false, Option.map_eq_some'] at h
      obtain ⟨j, hj, rfl⟩ := h
      simpa using ih hj

theorem idxOf?_drop_ne_nil {c : Char} {s : Str} {i : Nat}
    (h : idxOf? c s = some i) : s.drop i ≠ [] := by
  rw [idxOf?_drop h]
  simp

/-! ### Characterizations of the query and fragment extractors -/

theorem findQuery_none {t : Str} (h : idxOf? '?' t = none) :
    findQuery t = .error .queryNotFound := by
  simp [findQuery, h]

theorem findQuery_fbq {t : Str} {qi fi : Nat}
    (hq : idxOf? '?' t = some qi) (hf : idxOf? '#' t = some fi)
    (hlt : fi < qi) : findQuery t = .error .fragmentBeforeQuery := by
  simp [findQuery, hq, hf, hlt]

theorem take_drop_ne_nil_of_lt {t : Str} {qi fi : Nat}
    (hq : idxOf? '?' t = some qi) (hlt : qi < fi) :
    (t.take fi).drop qi ≠ [] := by
  have hql := idxOf?_lt_length hq
  intro hnil
  have := congrArg List.length hnil
  simp only [List.length_drop, List.length_take, List.length_nil] at this
  omega

theorem findQuery_both {t : Str} {qi fi : Nat}
    (hq : idxOf? '?' t = some qi) (hf : idxOf? '#' t = some fi)
    (hlt : qi < fi) : findQuery t = .ok ((t.take fi).drop qi, qi) := by
  have hne := take_drop_ne_nil_of_lt hq hlt
  have hnlt : ¬ fi < qi := by omega
  simp [findQuery, hq, hf, hnlt, hne]

theorem findQuery_noHash {t : Str} {qi : Nat}
    (hq : idxOf? '?' t = some qi) (hf : idxOf? '#' t = none) :
    findQuery t = .ok (t.drop qi, qi) := by
  have hne := idxOf?_drop_ne_nil hq
  simp [findQuery, hq, hf, hne]

theorem findQuery_ne_queryEmpty (t : Str) :
    findQuery t ≠ .error .queryEmpty := by
  match hq : idxOf? '?' t with
  | none => simp [findQuery_none hq]
  | some qi =>
    match hf : idxOf? '#' t with
    | none => simp [findQuery_noHash hq hf]
    | some fi =>
      rcases Nat.lt_trichotomy fi qi with hlt | heq | hgt
      · simp [findQuery_fbq hq hf hlt]
      · exfalso
        have h1 := idxOf?_drop hq
        have h2 := idxOf?_drop hf
        rw [heq] at h2
        rw [h1] at h2
        simp at h2
      · simp [findQuery_both hq hf hgt]

theorem findQuery_ok_head {t q : Str} {i : Nat}
    (h : findQuery t = .ok (q, i)) :
    idxOf? '?' t = some i ∧ q.head? = some '?' := by
  match hq : idxOf? '?' t with
  | none => rw [findQuery_none hq] at h; exact absurd h (by simp)
  | some qi =>
    match hf : idxOf? '#' t with
    | none =>
      rw [findQuery_noHash hq hf] at h
      have h2 : q = t.drop qi ∧ i = qi := by
        constructor <;> [skip; skip] <;>
          · injection h with h3
            injection h3 with h4 h5
            first | exact h4.symm | exact h5.symm
      obtain ⟨rfl, rfl⟩ := h2
      refine ⟨rfl, ?_⟩
      rw [idxOf?_drop hq]
      rfl
    | some fi =>
      rcases Nat.lt_trichotomy fi qi with hlt | heq | hgt
      · rw [findQuery_fbq hq hf hlt] at h
        exact absurd h (by simp)
      · exfalso
        have h1 := idxOf?_drop hq
        have h2 := idxOf?_drop hf
        rw [heq, h1] at h2
        simp at h2
      · rw [findQuery_both hq hf hgt] at h
        have h2 : q = (t.take fi).drop qi ∧ i = qi := by
          constructor <;>
            · injection h with h3
              injection h3 with h4 h5
              first | exact h4.symm | exact h5.symm
        obtain ⟨rfl, rfl⟩ := h2
        refine ⟨rfl, ?_⟩
        have hd := idxOf?_drop hq
        have ht : t[i]? = some '?' := by
          rw [← List.head?_drop, hd]
          rfl
        rw [List.head?_drop, List.getElem?_take, if_pos hgt, ht]

theorem findFragment_none {t : Str} (h : idxOf? '#' t = none) :
    findFragment t = .error .fragmentNotFound := by
  simp [findFragment, h]

theorem findFragment_some {t : Str} {fi : Nat} (h : idxOf? '#' t = some fi) :
    findFragment t = .ok (t.drop fi, fi) := by
  simp [findFragment, h]

theorem parseFragment_ok_val {f g : Str} (h : parseFragment f = .ok g) :
    g = f := by
  unfold parseFragment at h
  split at h
  · exact absurd h (by simp)
  · split at h
    · exact absurd h (by simp)
    · split at h
      · exact absurd h (by simp)
      · injection h with h2
        exact h2.symm

theorem parseFragment_error_ne_notFound {f : Str} {e : VErr}
    (h : parseFragment f = .error e) : e ≠ .fragmentNotFound := by
  unfold parseFragment at h
  split at h
  · injection h with h2
    rw [← h2]
    simp
  · split at h
    · injection h with h2
      rw [← h2]
      simp
    · split at h
      · injection h with h2
        rw [← h2]
        simp
      · exact absurd h (by simp)

theorem FAPF_none {t : Str} (h : idxOf? '#' t = none) :
    FindAndParseFragment t = .error .fragmentNotFound := by
  simp [FindAndParseFragment, findFragment_none h]

theorem FAPF_some_ok {t : Str} {fi : Nat}
    (h : idxOf? '#' t = some fi)
    (hp : parseFragment (t.drop fi) = .ok (t.drop fi)) :
    FindAndParseFragment t = .ok (t.drop fi, fi) := by
  simp [FindAndParseFragment, findFragment_some h, hp]

theorem FAPF_some_err {t : Str} {fi : Nat} {e : VErr}
    (h : idxOf? '#' t = some fi)
    (hp : parseFragment (t.drop fi) = .error e) :
    FindAndParseFragment t = .error e := by
  simp [FindAndParseFragment, findFragment_some h, hp]

theorem FAPF_ok_inv {t f : Str} {fi : Nat}
    (h : FindAndParseFragment t = .ok (f, fi)) :
    idxOf? '#' t = some fi ∧ f = t.drop fi ∧
      parseFragment (t.drop fi) = .ok (t.drop fi) := by
  match hidx : idxOf? '#' t with
  | none =>
    rw [FAPF_none hidx] at h
    exact absurd h (by simp)
  | some fj =>
    match hpf : parseFragment (t.drop fj) with
    | .error e =>
      rw [FAPF_some_err hidx hpf] at h
      exact absurd h (by simp)
    | .ok pf =>
      have hv := parseFragment_ok_val hpf
      subst hv
      rw [FAPF_some_ok hidx hpf] at h
      have h3 : (t.drop fj, fj) = (f, fi) := by injection h
      have hf1 : t.drop fj = f := congrArg Prod.fst h3
      have hf2 : fj = fi := congrArg Prod.snd h3
      subst hf2
      exact ⟨rfl, hf1.symm, hpf⟩

theorem FAPQ_notFound {t : Str} (h : idxOf? '?' t = none) :
    FindAndParseQuery t = ([], none, none) := by
  simp [FindAndParseQuery, findQuery_none h]

theorem FAPQ_fbq {t : Str} {qi fi : Nat}
    (hq : idxOf? '?' t = some qi) (hf : idxOf? '#' t = some fi)
    (hlt : fi < qi) :
    FindAndParseQuery t = ([], none, some .fragmentBeforeQuery) := by
  simp [FindAndParseQuery, findQuery_fbq hq hf hlt]

theorem FAPQ_of_ok {t q : Str} {i : Nat} (h : findQuery t = .ok (q, i)) :
    FindAndParseQuery t = ((parseQuery q).1, some i, none) := by
  simp [FindAndParseQuery, h]

theorem FAPQ_err_notFound {t : Str} (h : findQuery t = .error .queryNotFound) :
    FindAndParseQuery t = ([], none, none) := by
  simp [FindAndParseQuery, h]

theorem FAPQ_err_other {t : Str} {e : VErr} (h : findQuery t = .error e)
    (hne : e ≠ .queryNotFound) :
    FindAndParseQuery t = ([], none, some e) := by
  simp [FindAndParseQuery, h, hne]

theorem idxOf?_query_hash_ne {t : Str} {i : Nat}
    (h1 : idxOf? '?' t = some i) (h2 : idxOf? '#' t = some i) : False := by
  have d1 := idxOf?_drop h1
  have d2 := idxOf?_drop h2
  rw [d1] at d2
  simp at d2

theorem findQuery_error_cases {t : Str} {e : VErr} (h : findQuery t = .error e) :
    e = .queryNotFound ∨ e = .fragmentBeforeQuery := by
  match hq : idxOf? '?' t with
  | none =>
    rw [findQuery_none hq] at h
    left
    injection h with h2
    exact h2.symm
  | some qi =>
    match hf : idxOf? '#' t with
    | none =>
      rw [findQuery_noHash hq hf] at h
      exact absurd h (by simp)
    | some fi =>
      rcases Nat.lt_trichotomy fi qi with hlt | heq | hgt
      · rw [findQuery_fbq hq hf hlt] at h
        right
        injection h with h2
        exact h2.symm
      · exact absurd (heq ▸ hf) (fun hc => idxOf?_query_hash_ne hq hc)
      · rw [findQuery_both hq hf hgt] at h
        exact absurd h (by simp)

/-! ### Characterizations of `parseRequestTarget` -/

theorem prt_noHash_noQuery {t : Str} (hh : idxOf? '#' t = none)
    (hq : idxOf? '?' t = none) : parseRequestTarget t = .ok t := by
  simp [parseRequestTarget, FAPF_none hh, parseTargetAfterFragment,
    FAPQ_notFound hq]

theorem prt_noHash_query {t q : Str} {qi : Nat} (hh : idxOf? '#' t = none)
    (hfq : findQuery t = .ok (q, qi)) :
    parseRequestTarget t =
      .ok (if (parseQuery q).1 ≠ [] then t.take qi else t) := by
  simp only [parseRequestTarget, FAPF_none hh, reduceIte,
    parseTargetAfterFragment, FAPQ_of_ok hfq]
  split <;> simp_all

theorem prt_hash_err {t : Str} {fi : Nat} {e : VErr}
    (hh : idxOf? '#' t = some fi)
    (hpf : parseFragment (t.drop fi) = .error e) :
    parseRequestTarget t = .error e := by
  have hne := parseFragment_error_ne_notFound hpf
  simp [parseRequestTarget, FAPF_some_err hh hpf, hne]

theorem prt_hash_noQuery {t : Str} {fi : Nat}
    (hh : idxOf? '#' t = some fi)
    (hpf : parseFragment (t.drop fi) = .ok (t.drop fi))
    (hq : idxOf? '?' t = none) :
    parseRequestTarget t = .ok (t.take fi) := by
  have hdne := idxOf?_drop_ne_nil hh
  simp [parseRequestTarget, FAPF_some_ok hh hpf, parseTargetAfterFragment,
    FAPQ_notFound hq, hdne]

theorem prt_hash_fbq {t : Str} {fi qi : Nat}
    (hh : idxOf? '#' t = some fi)
    (hpf : parseFragment (t.drop fi) = .ok (t.drop fi))
    (hq : idxOf? '?' t = some qi) (hlt : fi < qi) :
    parseRequestTarget t = .error .fragmentBeforeQuery := by
  simp [parseRequestTarget, FAPF_some_ok hh hpf, parseTargetAfterFragment,
    FAPQ_fbq hq hh hlt]

theorem prt_hash_query {t q : Str} {fi qi : Nat}
    (hh : idxOf? '#' t = some fi)
    (hpf : parseFragment (t.drop fi) = .ok (t.drop fi))
    (hfq : findQuery t = .ok (q, qi)) :
    parseRequestTarget t =
      .ok (if (parseQuery q).1 ≠ [] then (t.take fi).take qi
           else t.take fi) := by
  have hdne := idxOf?_drop_ne_nil hh
  simp only [parseRequestTarget, FAPF_some_ok hh hpf,
    parseTargetAfterFragment, FAPQ_of_ok hfq]
  split <;> simp_all

theorem startHeaderLines_len (raw : Str) :
    ¬ (startHeaderLines raw).length < 1 := by
  unfold startHeaderLines
  cases hc : splitCRLF ((reqParts raw).getD 0 []) with
  | nil => exact absurd hc (splitCRLF_ne_nil _)
  | cons a l => simp

theorem parseRequestWith_eq (ord : Params → Params) (raw : Str)
    (h1 : (reqParts raw).length = 2) (h3 : (startToks raw).length = 3)
    {rt : RequestTarget}
    (hB : buildRequestTargetWith ord (targetToken raw) = .ok rt)
    {hs : List Header}
    (hH : parseHeaders (startHeaderLines raw).tail = .ok hs) :
    parseRequestWith ord raw =
      .ok ⟨⟨(startToks raw).getD 0 [], rt, (startToks raw).getD 2 []⟩,
           hs, (reqParts raw).getD 1 []⟩ := by
  have h2 := startHeaderLines_len raw
  simp [parseRequestWith, h1, h2, h3, hB, hH]

/-- C4: `findQuery` returns `NotFound` when the target contains no `?`,
`FragmentBeforeQuery` when a `#` occurs before the first `?`, and
otherwise succeeds with the substring from the first `?` (inclusive) up
to the first `#` (exclusive) or to the end of the string; the result
always includes the leading `?`, and the one-character result `"?"`
(e.g. for `"/page?"`) is a success. -/
theorem findQuery_spec (t : Str) :
    (idxOf? '?' t = none → findQuery t = .error .queryNotFound) ∧
    (∀ qi fi, idxOf? '?' t = some qi → idxOf? '#' t = some fi → fi < qi →
      findQuery t = .error .fragmentBeforeQuery) ∧
    (∀ qi fi, idxOf? '?' t = some qi → idxOf? '#' t = some fi → qi < fi →
      findQuery t = .ok ((t.take fi).drop qi, qi)) ∧
    (∀ qi, idxOf? '?' t = some qi → idxOf? '#' t = none →
      findQuery t = .ok (t.drop qi, qi)) ∧
    (∀ q i, findQuery t = .ok (q, i) → q.head? = some '?') ∧
    findQuery ("/page?".toList) = .ok ("?".toList, 5) := by
  refine ⟨findQuery_none, ?_, ?_, ?_, ?_, rfl⟩
  · intro qi fi hq hf hlt
    exact findQuery_fbq hq hf hlt
  · intro qi fi hq hf hlt
    exact findQuery_both hq hf hlt
  · intro qi hq hf
    exact findQuery_noHash hq hf
  · intro q i h
    exact (findQuery_ok_head h).2

/-- Witness for C4 at the concrete target `"/page?name=value#section"`. -/
theorem findQuery_spec_witness :
    findQuery ("/page?name=value#section".toList) =
      .ok ("?name=value".toList, 5) :=
  (findQuery_spec ("/page?name=value#section".toList)).2.2.1 5 16
    (by decide) (by decide) (by decide)

/-- C7: `parseFragment` fails with `Empty` on the empty string, with
`NoHashPrefix` when the input does not start with `#`, with
`ContainsWhitespace` when the input contains a tab, carriage return or
line feed (a space is allowed), and on success returns its input
unchanged, including the leading `#`. -/
theorem parseFragment_spec (f : Str) :
    (f = [] → parseFragment f = .error .fragmentEmpty) ∧
    (f ≠ [] → f.head? ≠ some '#' →
      parseFragment f = .error .fragmentNoHashMark) ∧
    (f.head? = some '#' → ('\t' ∈ f ∨ '\r' ∈ f ∨ '\n' ∈ f) →
      parseFragment f = .error .fragmentWhitespace) ∧
    (f.head? = some '#' → '\t' ∉ f → '\r' ∉ f → '\n' ∉ f →
      parseFragment f = .ok f) ∧
    parseFragment ("#line\nbreak".toList) = .error .fragmentWhitespace ∧
    parseFragment ("#a b".toList) = .ok ("#a b".toList) := by
  refine ⟨?_, ?_, ?_, ?_, rfl, rfl⟩
  · intro h
    simp [parseFragment, h]
  · intro h1 h2
    simp [parseFragment, h1, h2]
  · intro h1 h2
    have hne : f ≠ [] := by
      intro h
      subst h
      simp at h1
    unfold parseFragment
    rw [if_neg hne, if_neg (by simp [h1]), if_pos]
    rcases h2 with h2 | h2 | h2 <;> simp [h2]
  · intro h1 h2 h3 h4
    have hne : f ≠ [] := by
      intro h
      subst h
      simp at h1
    unfold parseFragment
    rw [if_neg hne, if_neg (by simp [h1]), if_neg (by simp [h2, h3, h4])]

/-- Witness for C7 at the concrete fragment `"#sec tion"` (with a space). -/
theorem parseFragment_spec_witness :
    parseFragment ("#sec tion".toList) = .ok ("#sec tion".toList) :=
  (parseFragment_spec ("#sec tion".toList)).2.2.2.1
    (by decide) (by decide) (by decide) (by decide)

/-- C6: `ValidatePath` classifies an empty target as `EmptyPath`, the
wildcard `*` with a non-OPTIONS method as a method-specific error, a
target without a leading `/` as a missing-leading-slash error, a target
containing `..` as `DirectoryTraversal`, a target with a `/`-separated
segment equal to `.` or `..` as `ForbiddenSegment`, and a target with a
character outside printable ASCII 32-126 as `InvalidChars`; in
particular `"/files/../../etc/passwd"` yields `DirectoryTraversal`.
The checks run in that order (fail-fast), so each clause assumes the
earlier checks passed. -/
theorem validatePath_spec (t m : Str) :
    (t = [] → validatePathTM t m = some .emptyPath) ∧
    (t = ['*'] → m ≠ optionsMethod →
      validatePathTM t m = some (.wildcardStar m)) ∧
    (t ≠ [] → ¬ (t = ['*'] ∧ m ≠ optionsMethod) → t.head? ≠ some '/' →
      validatePathTM t m = some (.missingLeadingSlash t)) ∧
    (t.head? = some '/' → hasSub ['.', '.'] t = true →
      validatePathTM t m = some .directoryTraversal) ∧
    (t.head? = some '/' → hasSub ['.', '.'] t = false →
      (splitChar '/' t).any segDot = true →
      validatePathTM t m = some .forbiddenSegment) ∧
    (t.head? = some '/' → hasSub ['.', '.'] t = false →
      (splitChar '/' t).any segDot = false → t.any badChar = true →
      validatePathTM t m = some .invalidPathChars) ∧
    validatePathTM ("/files/../../etc/passwd".toList) m =
      some .directoryTraversal := by
  have hslash : ∀ u : Str, u.head? = some '/' →
      u ≠ [] ∧ u ≠ ['*'] := by
    intro u hu
    constructor
    · intro h
      subst h
      simp at hu
    · intro h
      subst h
      simp at hu
  refine ⟨?_, ?_, ?_, ?_, ?_, ?_, rfl⟩
  · intro h
    simp [validatePathTM, h]
  · intro h hm
    subst h
    simp [validatePathTM, hm]
  · intro h1 h2 h3
    simp [validatePathTM, h1, h2, h3]
  · intro h1 h2
    obtain ⟨hn, hw⟩ := hslash t h1
    simp [validatePathTM, hn, hw, h1, h2]
  · intro h1 h2 h3
    obtain ⟨hn, hw⟩ := hslash t h1
    simp [validatePathTM, hn, hw, h1, h2, h3]
  · intro h1 h2 h3 h4
    obtain ⟨hn, hw⟩ := hslash t h1
    simp [validatePathTM, hn, hw, h1, h2, h3, h4]

/-- Witness for C6: the wildcard clause at `("*", "GET")` and the
forbidden-segment clause at `("/a/./b", "GET")`. -/
theorem validatePath_spec_witness :
    validatePathTM ("*".toList) ("GET".toList) =
      some (.wildcardStar ("GET".toList)) ∧
    validatePathTM ("/a/./b".toList) ("GET".toList) =
      some .forbiddenSegment :=
  ⟨(validatePath_spec ("*".toList) ("GET".toList)).2.1 rfl (by decide),
   (validatePath_spec ("/a/./b".toList) ("GET".toList)).2.2.2.2.1
      (by decide) (by decide) (by decide)⟩

/-- C8: parsing `"GET /search?q=a&q=b#r HTTP/1.1\r\nHost: x\r\n\r\n"`
succeeds with method `GET`, decomposed path `/search`, query parameters
mapping `q` to `["a", "b"]` in order, fragment `#r`, the single header
`Host: x`, and an empty body. -/
theorem parse_concrete_request :
    parseRequest ("GET /search?q=a&q=b#r HTTP/1.1\r\nHost: x\r\n\r\n".toList) =
      .ok ⟨⟨"GET".toList,
            ⟨"/search".toList, "?q=a&q=b".toList, "#r".toList⟩,
            "HTTP/1.1".toList⟩,
           [⟨"Host".toList, "x".toList⟩], []⟩ ∧
    (FindAndParseQuery ("/search?q=a&q=b#r".toList)).1 =
      [("q".toList, ["a".toList, "b".toList])] :=
  ⟨rfl, rfl⟩

/-- C9 (code bug): the query string stored in a parsed request is
re-serialized by ranging over the params map, whose iteration order Go
does not fix. With the same raw request, the insertion order and the
reversed order - both valid iteration orders of the same two-key map, as
the `Perm` conjunct records - produce structurally different requests,
so `parseRequest` is not a deterministic function of its input. -/
theorem parseRequest_map_order_dependent :
    (parseRequestWith List.reverse
        ("GET /a?x=1&y=2 HTTP/1.1\r\n\r\n".toList)).toOption.map
        (fun r => r.startLine.requestTarget.query) ≠
      (parseRequest ("GET /a?x=1&y=2 HTTP/1.1\r\n\r\n".toList)).toOption.map
        (fun r => r.startLine.requestTarget.query) ∧
    ((FindAndParseQuery ("/a?x=1&y=2".toList)).1.reverse).Perm
      (FindAndParseQuery ("/a?x=1&y=2".toList)).1 ∧
    (FindAndParseQuery ("/a?x=1&y=2".toList)).1 =
      [("x".toList, ["1".toList]), ("y".toList, ["2".toList])] :=
  ⟨by decide, List.reverse_perm _, rfl⟩

/-- C2 counterexample: on `"/page?"` the query lookup succeeds at index 5,
yet the decomposed path is the full string `"/page?"`, not the string
truncated at the query start; and `"/page#frag?notquery"` makes the
decomposition fail with `FragmentBeforeQuery` instead of being treated
as a target without a query. -/
theorem decompose_path_cex :
    findQuery ("/page?".toList) = .ok ("?".toList, 5) ∧
    parseRequestTarget ("/page?".toList) = .ok ("/page?".toList) ∧
    "/page?".toList ≠ ("/page?".toList).take 5 ∧
    parseRequestTarget ("/page#frag?notquery".toList) =
      .error .fragmentBeforeQuery :=
  ⟨rfl, rfl, by decide, rfl⟩

theorem prt_ok_parseFragment {t path : Str} {fi : Nat}
    (h : parseRequestTarget t = .ok path) (hidx : idxOf? '#' t = some fi) :
    parseFragment (t.drop fi) = .ok (t.drop fi) := by
  match hpf : parseFragment (t.drop fi) with
  | .ok pf => rw [parseFragment_ok_val hpf]
  | .error e =>
    rw [prt_hash_err hidx hpf] at h
    exact absurd h (by simp)

theorem FAPQ_ne_nil_inv {t : Str} (h : (FindAndParseQuery t).1 ≠ []) :
    ∃ q i, findQuery t = .ok (q, i) ∧ idxOf? '?' t = some i ∧
      (FindAndParseQuery t).1 = (parseQuery q).1 := by
  match hfq : findQuery t with
  | .ok (q, i) =>
    exact ⟨q, i, rfl, (findQuery_ok_head hfq).1, by rw [FAPQ_of_ok hfq]⟩
  | .error e =>
    rcases findQuery_error_cases hfq with rfl | rfl
    · rw [FAPQ_err_notFound hfq] at h
      simp at h
    · rw [FAPQ_err_other hfq (by simp)] at h
      simp at h

/-- C2 (amended): a successful decomposition truncates the path at the
fragment start when a fragment is found, and further at the query start
when the parsed query has at least one parameter; a query that parses to
zero parameters (such as a bare `"?"`) does not truncate, and a target
of the form `path#frag?notquery` makes the decomposition fail with
`FragmentBeforeQuery` rather than being treated as query-less. -/
theorem decompose_path_amended (t : Str) :
    (∀ path, parseRequestTarget t = .ok path →
      ((idxOf? '#' t = none ∧ (FindAndParseQuery t).1 = [] → path = t) ∧
       (∀ fi, idxOf? '#' t = some fi → (FindAndParseQuery t).1 = [] →
         path = t.take fi) ∧
       (∀ qi, idxOf? '?' t = some qi → (FindAndParseQuery t).1 ≠ [] →
         path = t.take qi))) ∧
    (∀ fi qi, idxOf? '#' t = some fi → idxOf? '?' t = some qi → fi < qi →
      parseFragment (t.drop fi) = .ok (t.drop fi) →
      parseRequestTarget t = .error .fragmentBeforeQuery) := by
  constructor
  · intro path h
    refine ⟨?_, ?_, ?_⟩
    · rintro ⟨hh, hP⟩
      match hq : idxOf? '?' t with
      | none =>
        rw [prt_noHash_noQuery hh hq] at h
        injection h with h2
        exact h2.symm
      | some qi =>
        have hfq := findQuery_noHash hq hh
        have hP2 : (parseQuery (t.drop qi)).1 = [] := by
          rw [FAPQ_of_ok hfq] at hP
          exact hP
        rw [prt_noHash_query hh hfq, if_neg (by simp [hP2])] at h
        injection h with h2
        exact h2.symm
    · intro fi hh hP
      have hpf := prt_ok_parseFragment h hh
      match hq : idxOf? '?' t with
      | none =>
        rw [prt_hash_noQuery hh hpf hq] at h
        injection h with h2
        exact h2.symm
      | some qi =>
        rcases Nat.lt_trichotomy fi qi with hlt | heq | hgt
        · rw [prt_hash_fbq hh hpf hq hlt] at h
          exact absurd h (by simp)
        · exact absurd (heq ▸ hh) (fun hc => idxOf?_query_hash_ne hq hc)
        · have hfq := findQuery_both hq hh hgt
          have hP2 : (parseQuery ((t.take fi).drop qi)).1 = [] := by
            rw [FAPQ_of_ok hfq] at hP
            exact hP
          rw [prt_hash_query hh hpf hfq, if_neg (by simp [hP2])] at h
          injection h with h2
          exact h2.symm
    · intro qi hq hne
      obtain ⟨q, i, hfq, hqi, hP⟩ := FAPQ_ne_nil_inv hne
      have hiq : i = qi := by
        rw [hq] at hqi
        injection hqi with h2
        exact h2.symm
      subst hiq
      have hPne : (parseQuery q).1 ≠ [] := by
        rw [← hP]
        exact hne
      match hh : idxOf? '#' t with
      | none =>
        have hfq2 := findQuery_noHash hq hh
        rw [hfq2] at hfq
        injection hfq with h2
        have hqv : q = t.drop i := (congrArg Prod.fst h2).symm
        subst hqv
        rw [prt_noHash_query hh hfq2, if_pos hPne] at h
        injection h with h3
        exact h3.symm
      | some fi =>
        have hpf := prt_ok_parseFragment h hh
        rcases Nat.lt_trichotomy fi i with hlt | heq | hgt
        · rw [findQuery_fbq hq hh hlt] at hfq
          exact absurd hfq (by simp)
        · exact absurd (heq ▸ hh) (fun hc => idxOf?_query_hash_ne hq hc)
        · have hfq2 := findQuery_both hq hh hgt
          rw [hfq2] at hfq
          injection hfq with h2
          have hqv : q = (t.take fi).drop i := (congrArg Prod.fst h2).symm
          subst hqv
          rw [prt_hash_query hh hpf hfq2, if_pos hPne] at h
          injection h with h3
          rw [← h3, List.take_take, Nat.min_eq_left (Nat.le_of_lt hgt)]
  · intro fi qi hh hq hlt hpf
    exact prt_hash_fbq hh hpf hq hlt

/-- Witness for C2 (amended) at the target `"/a?x=1#f"`: the decomposed
path is the target truncated at the query index 2. -/
theorem decompose_path_amended_witness :
    ("/a".toList : Str) = ("/a?x=1#f".toList).take 2 :=
  ((decompose_path_amended ("/a?x=1#f".toList)).1 ("/a".toList) rfl).2.2 2
    (by decide) (by decide)

/-- C5: `parseRequest` first trims surrounding spaces; it fails with
`MissingSeparator` unless splitting on the double line-ending yields
exactly two parts, fails with `InvalidStartLine` unless the start line
splits on single spaces into exactly three tokens, and applies no
enumeration check to the method or protocol tokens: any space-free,
line-ending-free method and protocol strings are accepted and stored
verbatim. -/
theorem parseRequest_structure_spec :
    (∀ raw : Str, parseRequest raw = parseRequest (trimSpacesOnly raw)) ∧
    (∀ raw : Str, (reqParts raw).length ≠ 2 →
      parseRequest raw = .error .missingSeparator) ∧
    (∀ raw : Str, (reqParts raw).length = 2 → (startToks raw).length ≠ 3 →
      parseRequest raw = .error .invalidStartLine) ∧
    (∀ m p : Str, m ≠ [] → ' ' ∉ m → '\r' ∉ m → '\n' ∉ m →
      ' ' ∉ p → '\r' ∉ p → '\n' ∉ p →
      parseRequest
          (m ++ ' ' :: '/' :: 'x' :: ' ' :: (p ++ ['\r', '\n', '\r', '\n'])) =
        .ok ⟨⟨m, ⟨['/', 'x'], ['?'], []⟩, p⟩, [], []⟩) := by
  refine ⟨?_, ?_, ?_, ?_⟩
  · intro raw
    simp only [parseRequest, parseRequestWith, reqParts, startHeaderLines,
      startToks, targetToken, trimSpacesOnly_idem]
  · intro raw h
    simp [parseRequest, parseRequestWith, h]
  · intro raw h1 h3
    have h2 := startHeaderLines_len raw
    simp [parseRequest, parseRequestWith, h1, h2, h3]
  · intro m p hm0 hmsp hmcr hmlf hpsp hpcr hplf
    have hxs_r : '\r' ∉ m ++ ' ' :: '/' :: 'x' :: ' ' :: p := by
      intro hmem
      simp only [List.mem_append, List.mem_cons] at hmem
      rcases hmem with h | h | h | h | h | h
      · exact hmcr h
      · exact absurd h (by decide)
      · exact absurd h (by decide)
      · exact absurd h (by decide)
      · exact absurd h (by decide)
      · exact hpcr h
    have hraw : m ++ ' ' :: '/' :: 'x' :: ' ' :: (p ++ ['\r', '\n', '\r', '\n'])
        = (m ++ ' ' :: '/' :: 'x' :: ' ' :: p) ++ ['\r', '\n', '\r', '\n'] := by
      simp
    have htrim : trimSpacesOnly
        (m ++ ' ' :: '/' :: 'x' :: ' ' :: (p ++ ['\r', '\n', '\r', '\n']))
        = m ++ ' ' :: '/' :: 'x' :: ' ' :: (p ++ ['\r', '\n', '\r', '\n']) := by
      apply trimSpacesOnly_eq_self
      · intro a ha
        cases m with
        | nil => exact absurd rfl hm0
        | cons c m2 =>
          simp only [List.cons_append, List.head?_cons, Option.some.injEq] at ha
          subst ha
          intro hc
          apply hmsp
          rw [← hc]
          exact List.mem_cons_self c m2
      · intro a ha
        rw [hraw, List.getLast?_append] at ha
        have ha2 : '\n' = a := by
          simpa using ha
        subst ha2
        decide
    have hparts : reqParts
        (m ++ ' ' :: '/' :: 'x' :: ' ' :: (p ++ ['\r', '\n', '\r', '\n']))
        = [m ++ ' ' :: '/' :: 'x' :: ' ' :: p, []] := by
      unfold reqParts
      rw [htrim, hraw, splitSep_sep_append [] hxs_r]
      rfl
    have hlines : startHeaderLines
        (m ++ ' ' :: '/' :: 'x' :: ' ' :: (p ++ ['\r', '\n', '\r', '\n']))
        = [m ++ ' ' :: '/' :: 'x' :: ' ' :: p] := by
      unfold startHeaderLines
      rw [hparts]
      exact splitCRLF_of_not_mem hxs_r
    have htoks : startToks
        (m ++ ' ' :: '/' :: 'x' :: ' ' :: (p ++ ['\r', '\n', '\r', '\n']))
        = [m, ['/', 'x'], p] := by
      unfold startToks
      rw [hlines]
      have h1 : splitChar ' ' (m ++ ' ' :: '/' :: 'x' :: ' ' :: p)
          = m :: splitChar ' ' ('/' :: 'x' :: ' ' :: p) :=
        splitChar_append ('/' :: 'x' :: ' ' :: p) hmsp
      have h2 : splitChar ' ' ('/' :: 'x' :: ' ' :: p)
          = ['/', 'x'] :: splitChar ' ' p := by
        have := splitChar_append (a := ['/', 'x']) (c := ' ') p (by decide)
        simpa using this
      simp only [List.getD_cons_zero]
      rw [h1, h2, splitChar_of_not_mem hpsp]
    have hB : buildRequestTargetWith id
        (targetToken (m ++ ' ' :: '/' :: 'x' :: ' ' :: (p ++ ['\r', '\n', '\r', '\n'])))
        = .ok ⟨['/', 'x'], ['?'], []⟩ := by
      unfold targetToken
      rw [htoks]
      rfl
    have hH : parseHeaders (startHeaderLines
        (m ++ ' ' :: '/' :: 'x' :: ' ' :: (p ++ ['\r', '\n', '\r', '\n']))).tail
        = .ok [] := by
      rw [hlines]
      rfl
    have hfin := parseRequestWith_eq id _ (by rw [hparts]; rfl)
      (by rw [htoks]; rfl) hB hH
    rw [htoks, hparts] at hfin
    exact hfin

/-- Witness for C5: the separator clause rejects a raw request without a
header/body separator, and the opaque-token clause accepts the made-up
method `"FROB"` with protocol `"XPROTO/9"`. -/
theorem parseRequest_structure_spec_witness :
    parseRequest ("GET / HTTP/1.1".toList) = .error .missingSeparator ∧
    parseRequest ("FROB /x XPROTO/9\r\n\r\n".toList) =
      .ok ⟨⟨"FROB".toList, ⟨['/', 'x'], ['?'], []⟩, "XPROTO/9".toList⟩,
           [], []⟩ := by
  constructor
  · exact parseRequest_structure_spec.2.1 ("GET / HTTP/1.1".toList) (by decide)
  · have h := parseRequest_structure_spec.2.2.2 ("FROB".toList)
      ("XPROTO/9".toList) (by decide) (by decide) (by decide) (by decide)
      (by decide) (by decide) (by decide)
    simpa using h

theorem hasSub_nil_pat (v : Str) : hasSub [] v = true := by
  cases v <;> simp [hasSub]

theorem hasSub_append_right {pat s : Str} (v : Str)
    (h : hasSub pat s = true) : hasSub pat (s ++ v) = true := by
  induction s with
  | nil =>
    simp only [hasSub] at h
    have hp : pat = [] := by
      have := List.isPrefixOf_iff_prefix.mp h
      simpa using this
    subst hp
    simpa using hasSub_nil_pat v
  | cons a s2 ih =>
    simp only [hasSub, Bool.or_eq_true] at h
    rcases h with h | h
    · have hp := List.isPrefixOf_iff_prefix.mp h
      have hp2 : pat <+: (a :: s2) ++ v :=
        hp.trans (List.prefix_append (a :: s2) v)
      rw [List.cons_append] at hp2
      simp [hasSub, List.isPrefixOf_iff_prefix]
      exact .inl hp2
    · simp [hasSub, ih h]

theorem hasSub_append_left {pat s : Str} (u : Str)
    (h : hasSub pat s = true) : hasSub pat (u ++ s) = true := by
  induction u with
  | nil => simpa using h
  | cons x u2 ih => simp [hasSub, ih]

theorem hasSub_mono {pat s : Str} (u v : Str) (h : hasSub pat s = true) :
    hasSub pat (u ++ s ++ v) = true := by
  rw [List.append_assoc]
  exact hasSub_append_left u (hasSub_append_right v h)

theorem str_head {rt : RequestTarget} {c : Char}
    (h : rt.path.head? = some c) :
    (RequestTarget.str rt).head? = some c := by
  simp [RequestTarget.str, List.head?_append, h]

theorem vp_traversal {t : Str} (m : Str) (h1 : t.head? = some '/')
    (h2 : hasSub ['.', '.'] t = true) :
    validatePathTM t m = some .directoryTraversal := by
  have hn : t ≠ [] := by
    intro h
    subst h
    simp at h1
  have hw : t ≠ ['*'] := by
    intro h
    subst h
    simp at h1
  simp [validatePathTM, hn, hw, h1, h2]

theorem vp_chars {t : Str} (m : Str) (h1 : t.head? = some '/')
    (h2 : hasSub ['.', '.'] t = false)
    (h3 : (splitChar '/' t).any segDot = false)
    (h4 : t.any badChar = true) :
    validatePathTM t m = some .invalidPathChars := by
  have hn : t ≠ [] := by
    intro h
    subst h
    simp at h1
  have hw : t ≠ ['*'] := by
    intro h
    subst h
    simp at h1
  simp [validatePathTM, hn, hw, h1, h2, h3, h4]

theorem vp_ne_wildcard {t : Str} (ht : t ≠ ['*']) (m m2 : Str) :
    validatePathTM t m ≠ some (.wildcardStar m2) := by
  unfold validatePathTM
  by_cases h0 : t = []
  · simp [h0]
  · rw [if_neg h0, if_neg (fun hc : t = ['*'] ∧ m ≠ optionsMethod => ht hc.1)]
    split
    · simp
    · split
      · simp
      · split
        · simp
        · split <;> simp

/-- C10 (implicit): every check of `ValidatePath` runs on the
concatenation `path + query + fragment` (the target's `String()`), not
on the path alone: a `..` inside the query or fragment yields
`DirectoryTraversal`, a character outside printable ASCII anywhere in
the concatenation yields `InvalidChars` (each once the checks before it
pass), and a request whose path is `*` with a non-empty query or
fragment is never recognized by the wildcard check. -/
theorem validatePath_concat_spec (r : Request) :
    Request.ValidatePath r =
      validatePathTM (RequestTarget.str r.startLine.requestTarget)
        r.startLine.method ∧
    (r.startLine.requestTarget.path.head? = some '/' →
      (hasSub ['.', '.'] r.startLine.requestTarget.query = true ∨
        hasSub ['.', '.'] r.startLine.requestTarget.fragment = true) →
      Request.ValidatePath r = some .directoryTraversal) ∧
    (r.startLine.requestTarget.path = ['*'] →
      (r.startLine.requestTarget.query ≠ [] ∨
        r.startLine.requestTarget.fragment ≠ []) →
      ∀ m2, Request.ValidatePath r ≠ some (.wildcardStar m2)) ∧
    (r.startLine.requestTarget.path.head? = some '/' →
      hasSub ['.', '.'] (RequestTarget.str r.startLine.requestTarget) = false →
      (splitChar '/' (RequestTarget.str r.startLine.requestTarget)).any
          segDot = false →
      (r.startLine.requestTarget.query.any badChar = true ∨
        r.startLine.requestTarget.fragment.any badChar = true) →
      Request.ValidatePath r = some .invalidPathChars) := by
  refine ⟨rfl, ?_, ?_, ?_⟩
  · intro hp hsub
    have hh := str_head hp
    have hs : hasSub ['.', '.']
        (RequestTarget.str r.startLine.requestTarget) = true := by
      rcases hsub with hq | hf
      · exact hasSub_mono r.startLine.requestTarget.path
          r.startLine.requestTarget.fragment hq
      · have := hasSub_mono
          (r.startLine.requestTarget.path ++ r.startLine.requestTarget.query)
          [] hf
        simpa [RequestTarget.str] using this
    exact vp_traversal _ hh hs
  · intro hp hne m2
    have hst : RequestTarget.str r.startLine.requestTarget =
        '*' :: (r.startLine.requestTarget.query ++
          r.startLine.requestTarget.fragment) := by
      simp [RequestTarget.str, hp]
    have ht : RequestTarget.str r.startLine.requestTarget ≠ ['*'] := by
      rw [hst]
      intro hc
      injection hc with h1 h2
      rcases hne with hq | hf
      · exact hq (List.append_eq_nil.mp h2).1
      · exact hf (List.append_eq_nil.mp h2).2
    exact vp_ne_wildcard ht _ m2
  · intro hp h2 h3 hb
    have hh := str_head hp
    have h4 : (RequestTarget.str r.startLine.requestTarget).any
        badChar = true := by
      rcases hb with hq | hf
      · simp [RequestTarget.str, List.any_append, hq]
      · simp [RequestTarget.str, List.any_append, hf]
    exact vp_chars _ hh h2 h3 h4

/-- Witness for C10: a `..` hidden in the query of `"/f?a=.."` makes
`ValidatePath` report `DirectoryTraversal` for the whole request. -/
theorem validatePath_concat_spec_witness :
    Request.ValidatePath
        ⟨⟨"GET".toList, ⟨"/f".toList, "?a=..".toList, []⟩,
          "HTTP/1.1".toList⟩, [], []⟩ = some .directoryTraversal :=
  (validatePath_concat_spec
    ⟨⟨"GET".toList, ⟨"/f".toList, "?a=..".toList, []⟩,
      "HTTP/1.1".toList⟩, [], []⟩).2.1 (by decide) (.inl (by decide))

end Volk
